import Mathlib

/-!
Verification of the DVD-screensaver repository (`src/main.rs`) against its
natural-language specification.

Modelling conventions:
* `f32` arithmetic in the bounce stepper is modelled over `ℚ` (exact
  arithmetic); positions, sizes, velocities and delta times are rationals.
* nannou's `Rect` stores a center `(x, y)` and extents `(w, h)`;
  `left = x - w/2`, `right = x + w/2`, `bottom = y - h/2`, `top = y + h/2`,
  and `Rect::from_x_y_w_h` is the anonymous constructor below.
* The spec's `BounceEvent`s are made explicit: `update` returns, next to the
  new state, the source's `color_changed` flag and the list of edge
  crossings (one event per fired clamp branch, in source order).
-/

set_option maxHeartbeats 2000000

namespace DvdScreensaver

/-- nannou `Rect`, as used by `main.rs`: center plus width and height. -/
structure Rect where
  x : ℚ
  y : ℚ
  w : ℚ
  h : ℚ
deriving DecidableEq

def Rect.left (r : Rect) : ℚ := r.x - r.w / 2

def Rect.right (r : Rect) : ℚ := r.x + r.w / 2

def Rect.bottom (r : Rect) : ℚ := r.y - r.h / 2

def Rect.top (r : Rect) : ℚ := r.y + r.h / 2

/-- The fields of `Model` that the bounce stepper `update` touches:
`dvd_rect` and the two components of `dvd_vel`. -/
structure SimState where
  dvdRect : Rect
  velX : ℚ
  velY : ℚ
deriving DecidableEq

/-- One spec-level `BounceEvent` per viewport edge. -/
inductive BounceEvent where
  | left
  | right
  | bottom
  | top
deriving DecidableEq

/-- The bounding box lies entirely within the viewport `win`. -/
def inBounds (win r : Rect) : Prop :=
  win.left ≤ r.left ∧ r.right ≤ win.right ∧ win.bottom ≤ r.bottom ∧ r.top ≤ win.top

instance (win r : Rect) : Decidable (inBounds win r) := by
  unfold inBounds; infer_instance

/-- `fn update` of `main.rs` (lines 713-772). `win` is `app.window_rect()`,
`dt` is `app.duration.since_prev_update.secs()`. The position is translated
by `vel * dt`; then the four edge checks run in source order (left, right,
bottom, top), each on the rect as clamped so far, each clamping the center
onto the violated edge and overwriting the velocity component with its
absolute value directed inward. The returned `Bool` is the source's
`color_changed` accumulator (set `true` by every fired branch); the returned
list holds one `BounceEvent` per fired branch, in source order. -/
def update (win : Rect) (st : SimState) (dt : ℚ) : SimState × Bool × List BounceEvent :=
  let r0 : Rect := ⟨st.dvdRect.x + st.velX * dt, st.dvdRect.y + st.velY * dt,
                    st.dvdRect.w, st.dvdRect.h⟩
  let r1 : Rect := if r0.left ≤ win.left then ⟨win.left + r0.w / 2, r0.y, r0.w, r0.h⟩ else r0
  let vx1 : ℚ := if r0.left ≤ win.left then |st.velX| else st.velX
  let cc1 : Bool := if r0.left ≤ win.left then true else false
  let r2 : Rect := if win.right ≤ r1.right then ⟨win.right - r1.w / 2, r1.y, r1.w, r1.h⟩ else r1
  let vx2 : ℚ := if win.right ≤ r1.right then -|vx1| else vx1
  let cc2 : Bool := if win.right ≤ r1.right then true else cc1
  let r3 : Rect := if r2.bottom ≤ win.bottom then ⟨r2.x, win.bottom + r2.h / 2, r2.w, r2.h⟩ else r2
  let vy1 : ℚ := if r2.bottom ≤ win.bottom then |st.velY| else st.velY
  let cc3 : Bool := if r2.bottom ≤ win.bottom then true else cc2
  let r4 : Rect := if win.top ≤ r3.top then ⟨r3.x, win.top - r3.h / 2, r3.w, r3.h⟩ else r3
  let vy2 : ℚ := if win.top ≤ r3.top then -|vy1| else vy1
  let cc4 : Bool := if win.top ≤ r3.top then true else cc3
  let events : List BounceEvent :=
    (if r0.left ≤ win.left then [BounceEvent.left] else [])
      ++ (if win.right ≤ r1.right then [BounceEvent.right] else [])
      ++ (if r2.bottom ≤ win.bottom then [BounceEvent.bottom] else [])
      ++ (if win.top ≤ r3.top then [BounceEvent.top] else [])
  (⟨r4, vx2, vy2⟩, cc4, events)

/-- Number of read-modify-writes of the process-wide `LAST_HUE` cell that one
`update` tick performs: the source runs `model.image = change_color(..)` once
when `color_changed` is set, and one `change_color` call locks `LAST_HUE`,
reads it, and writes it exactly once. -/
def updateRmwWrites (win : Rect) (st : SimState) (dt : ℚ) : Nat :=
  if (update win st dt).2.1 then 1 else 0

/-- Claim C1: for every delta time `≥ 0` and every state whose bounding box
initially lies entirely within the viewport, one `update` step leaves the
bounding box entirely within the viewport. -/
theorem update_keeps_box_in_viewport (win : Rect) (st : SimState) (dt : ℚ)
    (hin : inBounds win st.dvdRect) (hdt : 0 ≤ dt) :
    inBounds win (update win st dt).1.dvdRect := by
  obtain ⟨h1, h2, h3, h4⟩ := hin
  simp only [Rect.left, Rect.right, Rect.bottom, Rect.top] at h1 h2 h3 h4
  simp only [update, Rect.left, Rect.right, Rect.bottom, Rect.top, inBounds]
  split_ifs <;> refine ⟨?_, ?_, ?_, ?_⟩ <;> dsimp only <;> linarith

/-- Witness for C1 at the concrete input `win = ⟨0,0,200,200⟩`,
box `⟨0,0,20,20⟩`, velocity `(40,40)`, `dt = 1`. -/
theorem update_keeps_box_in_viewport_witness :
    inBounds ⟨0, 0, 200, 200⟩ (⟨0, 0, 20, 20⟩ : Rect) ∧ (0 : ℚ) ≤ 1 ∧
    inBounds ⟨0, 0, 200, 200⟩
      (update ⟨0, 0, 200, 200⟩ ⟨⟨0, 0, 20, 20⟩, 40, 40⟩ 1).1.dvdRect :=
  ⟨by norm_num [inBounds, Rect.left, Rect.right, Rect.bottom, Rect.top], by norm_num,
    update_keeps_box_in_viewport ⟨0, 0, 200, 200⟩ ⟨⟨0, 0, 20, 20⟩, 40, 40⟩ 1
      (by norm_num [inBounds, Rect.left, Rect.right, Rect.bottom, Rect.top]) (by norm_num)⟩

/-- Counterexample to C4 as stated: a box resting on the left viewport edge
with zero velocity registers a left-edge collision (a bounce event is
emitted), yet the post-step x velocity is `|0| = 0`, which is not positive,
so the velocity does not strictly point toward the interior. -/
theorem update_left_collision_zero_velocity_not_positive :
    BounceEvent.left ∈ (update ⟨0, 0, 200, 200⟩ ⟨⟨-90, 0, 20, 20⟩, 0, 0⟩ 1).2.2 ∧
    ¬ (0 < (update ⟨0, 0, 200, 200⟩ ⟨⟨-90, 0, 20, 20⟩, 0, 0⟩ 1).1.velX) := by
  norm_num [update, Rect.left, Rect.right, Rect.bottom, Rect.top]

/-- Claim C4 (amended): across one `update` step the absolute value of each
velocity component is unchanged, however many collisions occur; after a step
whose events include a right (resp. top) collision the x (resp. y) velocity
is nonpositive — strictly negative when the incoming component is nonzero —
and after a step with a left (resp. bottom) collision but no right
(resp. top) collision the component is nonnegative — strictly positive when
the incoming component is nonzero. -/
theorem update_velocity_magnitude_and_signs (win : Rect) (st : SimState) (dt : ℚ) :
    (|(update win st dt).1.velX| = |st.velX| ∧ |(update win st dt).1.velY| = |st.velY|) ∧
    (BounceEvent.right ∈ (update win st dt).2.2 →
      (update win st dt).1.velX ≤ 0 ∧ (st.velX ≠ 0 → (update win st dt).1.velX < 0)) ∧
    (BounceEvent.left ∈ (update win st dt).2.2 → BounceEvent.right ∉ (update win st dt).2.2 →
      0 ≤ (update win st dt).1.velX ∧ (st.velX ≠ 0 → 0 < (update win st dt).1.velX)) ∧
    (BounceEvent.top ∈ (update win st dt).2.2 →
      (update win st dt).1.velY ≤ 0 ∧ (st.velY ≠ 0 → (update win st dt).1.velY < 0)) ∧
    (BounceEvent.bottom ∈ (update win st dt).2.2 → BounceEvent.top ∉ (update win st dt).2.2 →
      0 ≤ (update win st dt).1.velY ∧ (st.velY ≠ 0 → 0 < (update win st dt).1.velY)) := by
  simp only [update, Rect.left, Rect.right, Rect.bottom, Rect.top]
  split_ifs <;>
    simp_all [abs_abs, abs_neg, abs_nonneg, neg_nonpos, abs_pos]

/-- Witness for the amended C4 at the concrete corner-hit input: the x
velocity magnitude is preserved and, the step having emitted a right-edge
event, the resulting x velocity is nonpositive. -/
theorem update_velocity_magnitude_and_signs_witness :
    |(update ⟨0, 0, 200, 200⟩ ⟨⟨80, 80, 20, 20⟩, 40, 40⟩ 1).1.velX| = |(40 : ℚ)| ∧
    (update ⟨0, 0, 200, 200⟩ ⟨⟨80, 80, 20, 20⟩, 40, 40⟩ 1).1.velX ≤ 0 :=
  ⟨(update_velocity_magnitude_and_signs ⟨0, 0, 200, 200⟩ ⟨⟨80, 80, 20, 20⟩, 40, 40⟩ 1).1.1,
    ((update_velocity_magnitude_and_signs ⟨0, 0, 200, 200⟩ ⟨⟨80, 80, 20, 20⟩, 40, 40⟩ 1).2.1
      (by norm_num [update, Rect.left, Rect.right, Rect.bottom, Rect.top])).1⟩

/-- Claim C5: a step that crosses the right and top edges (and not the left
or bottom ones) emits exactly the two bounce events `[right, top]`, one per
axis, and its single resulting position satisfies both edge constraints
simultaneously: box right edge on the viewport right edge and box top edge
on the viewport top edge. -/
theorem update_corner_hit_right_top (win : Rect) (st : SimState) (dt : ℚ)
    (hin : inBounds win st.dvdRect) (hdt : 0 ≤ dt)
    (hnotL : win.left < st.dvdRect.x + st.velX * dt - st.dvdRect.w / 2)
    (hcrossR : win.right ≤ st.dvdRect.x + st.velX * dt + st.dvdRect.w / 2)
    (hnotB : win.bottom < st.dvdRect.y + st.velY * dt - st.dvdRect.h / 2)
    (hcrossT : win.top ≤ st.dvdRect.y + st.velY * dt + st.dvdRect.h / 2) :
    (update win st dt).2.2 = [BounceEvent.right, BounceEvent.top] ∧
    (update win st dt).1.dvdRect.right = win.right ∧
    (update win st dt).1.dvdRect.top = win.top := by
  simp only [Rect.left, Rect.right, Rect.bottom, Rect.top] at hnotL hcrossR hnotB hcrossT
  have key : update win st dt =
      (⟨⟨win.right - st.dvdRect.w / 2, win.top - st.dvdRect.h / 2,
         st.dvdRect.w, st.dvdRect.h⟩, -|st.velX|, -|st.velY|⟩, true,
        [BounceEvent.right, BounceEvent.top]) := by
    simp only [update, Rect.left, Rect.right, Rect.bottom, Rect.top]
    split_ifs
    all_goals dsimp only at *
    all_goals first
      | rfl
      | (exfalso; linarith)
  rw [key]
  refine ⟨rfl, ?_, ?_⟩ <;> simp [Rect.right, Rect.top]

/-- Witness for C5 at the concrete corner-hit input: box `⟨80,80,20,20⟩`
with velocity `(40,40)` and `dt = 1` in the viewport `⟨0,0,200,200⟩`. -/
theorem update_corner_hit_right_top_witness :
    inBounds ⟨0, 0, 200, 200⟩ (⟨80, 80, 20, 20⟩ : Rect) ∧
    (update ⟨0, 0, 200, 200⟩ ⟨⟨80, 80, 20, 20⟩, 40, 40⟩ 1).2.2 =
      [BounceEvent.right, BounceEvent.top] :=
  ⟨by norm_num [inBounds, Rect.left, Rect.right, Rect.bottom, Rect.top],
    (update_corner_hit_right_top ⟨0, 0, 200, 200⟩ ⟨⟨80, 80, 20, 20⟩, 40, 40⟩ 1
      (by norm_num [inBounds, Rect.left, Rect.right, Rect.bottom, Rect.top]) (by norm_num)
      (by norm_num [Rect.left]) (by norm_num [Rect.right])
      (by norm_num [Rect.bottom]) (by norm_num [Rect.top])).1⟩

/-- Counterexample to C6 as stated: the concrete corner hit emits two bounce
events in one tick, yet `LAST_HUE` is read-modify-written only once in that
tick (`change_color` runs once per tick with `color_changed` set, not once
per event), so it is not RMW-ed exactly once per bounce event. -/
theorem update_corner_hit_two_events_one_rmw :
    ((update ⟨0, 0, 200, 200⟩ ⟨⟨80, 80, 20, 20⟩, 40, 40⟩ 1).2.2).length = 2 ∧
    updateRmwWrites ⟨0, 0, 200, 200⟩ ⟨⟨80, 80, 20, 20⟩, 40, 40⟩ 1 = 1 ∧ (1 : Nat) ≠ 2 := by
  norm_num [update, updateRmwWrites, Rect.left, Rect.right, Rect.bottom, Rect.top]

/-- The circular-distance measure computed inside `fn change_color`
(lines 612-631): `hue_diff = (new_hue - last_hue).abs()` followed by
`min_diff = hue_diff.min(360 - hue_diff)`. `i32` is modelled as `Int`
(no overflow occurs for hues below 360). -/
def hueMinDiff (lastHue newHue : Int) : Int :=
  min |newHue - lastHue| (360 - |newHue - lastHue|)

/-- The hue-selection loop of `fn change_color`: `draws` models the
successive results of `rng.gen_range(0..360)`; the loop returns the first
draw whose circular distance to the committed hue is at least 60, which is
then stored back into `LAST_HUE`. `none` models exhausting the listed
draws (the real loop would keep drawing). -/
def changeColorHue (lastHue : Int) : List Int → Option Int
  | [] => none
  | c :: rest => if 60 ≤ hueMinDiff lastHue c then some c else changeColorHue lastHue rest

/-- Claim C2: for every prior committed hue in `[0,360)`, whenever the
recoloring loop commits a hue (necessarily one of the draws from
`gen_range(0..360)`, so each draw lies in `[0,360)`), the committed hue is
in `[0,360)` and its circular distance `min(|a-b|, 360-|a-b|)` to the
previous committed hue is at least 60 degrees. -/
theorem change_color_commits_distant_hue (lastHue newHue : Int) (draws : List Int)
    (hlast : 0 ≤ lastHue ∧ lastHue < 360)
    (hdraws : ∀ c ∈ draws, 0 ≤ c ∧ c < 360)
    (h : changeColorHue lastHue draws = some newHue) :
    (0 ≤ newHue ∧ newHue < 360) ∧
    60 ≤ min |newHue - lastHue| (360 - |newHue - lastHue|) := by
  induction draws with
  | nil => simp [changeColorHue] at h
  | cons c rest ih =>
    rw [changeColorHue] at h
    split_ifs at h with hc
    · have hcn : c = newHue := by injection h
      subst hcn
      exact ⟨hdraws c (List.mem_cons_self c rest), hc⟩
    · exact ih (fun d hd => hdraws d (List.mem_cons_of_mem c hd)) h

/-- Witness for C2: from hue 0, the draw 30 is rejected (distance 30) and
the draw 100 is committed; 100 is in range with circular distance 100. -/
theorem change_color_commits_distant_hue_witness :
    changeColorHue 0 [30, 100] = some 100 ∧ (0 ≤ (100 : Int) ∧ (100 : Int) < 360) ∧
    60 ≤ min |(100 : Int) - 0| (360 - |(100 : Int) - 0|) :=
  ⟨by decide, change_color_commits_distant_hue 0 100 [30, 100] (by decide)
    (by decide) (by decide)⟩

/-- Claim C6 (amended): within the bounce loop, one `update` tick
read-modify-writes the hue cell at most once, and exactly once precisely
when the tick emits at least one bounce event — a two-event corner hit
still triggers a single read-modify-write, not two. -/
theorem update_rmw_once_per_colliding_tick (win : Rect) (st : SimState) (dt : ℚ) :
    updateRmwWrites win st dt ≤ 1 ∧
    (updateRmwWrites win st dt = 1 ↔ (update win st dt).2.2 ≠ []) := by
  unfold updateRmwWrites
  simp only [update, Rect.left, Rect.right, Rect.bottom, Rect.top]
  split_ifs <;> simp_all

/-- The run modes selected by `fn main` (lines 64-91). `screensaverExec` is
the `/s` branch (it runs the same screensaver app — the spec's alias of
Interactive); `passwordStub` is the `/a` branch, which exits with code 0
immediately. -/
inductive LaunchMode where
  | interactive
  | configure
  | preview (hostHandle : Option Int)
  | screensaverExec
  | passwordStub
deriving DecidableEq

/-- Numeric value of an ASCII digit. -/
def digitVal (c : Char) : Nat := c.toNat - 48

/-- Value of a big-endian ASCII digit string. -/
def digitsVal (l : List Char) : Nat := l.foldl (fun a c => 10 * a + digitVal c) 0

/-- ASCII lowercasing of one character; models Rust `to_lowercase` on the
ASCII flag arguments the dispatcher compares. -/
def charToLower (c : Char) : Char :=
  if 'A' ≤ c ∧ c ≤ 'Z' then Char.ofNat (c.toNat + 32) else c

/-- `String::to_lowercase`, restricted to the ASCII case relevant here. -/
def strToLower (s : String) : String := String.mk (s.toList.map charToLower)

/-- `str::starts_with`, over the character list of the string. -/
def startsWithStr (s pre : String) : Bool := pre.toList.isPrefixOf s.toList

/-- Splits the optional leading sign of a numeric literal, as Rust's
numeric `FromStr` implementations do: returns (isNegative, remaining
characters). -/
def splitSign (l : List Char) : Bool × List Char :=
  match l with
  | [] => (false, [])
  | c :: rest =>
    if c = '+' then (false, rest)
    else if c = '-' then (true, rest)
    else (false, l)

/-- Rust `str::parse::<isize>`: optional `+`/`-` sign followed by one or
more ASCII digits, rejecting anything else and values outside
`[-2^63, 2^63-1]` (64-bit `isize`). Returns `none` where Rust returns
`Err`. -/
def parseIsize (s : String) : Option Int :=
  let p := splitSign s.toList
  if p.2 ≠ [] ∧ p.2.all Char.isDigit then
    let v : Nat := digitsVal p.2
    if p.1 then
      if v ≤ 2 ^ 63 then some (-(v : Int)) else none
    else
      if v ≤ 2 ^ 63 - 1 then some (v : Int) else none
  else none

/-- Rust slice `flag[2..]`, over characters (the flags involved are ASCII,
where byte and character indexing agree). -/
def strDrop (s : String) (n : Nat) : String := String.mk (s.toList.drop n)

/-- `fn parse_preview_hwnd` (lines 93-106): with three or more arguments
the handle is parsed from `args[2]`; with exactly two, from the characters
of `args[1]` after the two flag characters when there are any; otherwise
`None`. Note the original (not lowercased) `args[1]` is used. -/
def parse_preview_hwnd (args : List String) : Option Int :=
  if 2 < args.length then
    parseIsize (args.getD 2 "")
  else if 1 < args.length then
    let flag := args.getD 1 ""
    if 2 < flag.length then parseIsize (strDrop flag 2) else none
  else none

/-- The mode dispatch of `fn main` (lines 64-91): `args` is the full
`env::args()` list, whose head is the program path. One argument only →
interactive; otherwise the first user argument is lowercased and matched
by prefix against `/c`, `-c`, `/p`, `-p`, `/s`, `-s`, `/a`, `-a` in source
order, and anything else falls back to interactive. -/
def mainMode (args : List String) : LaunchMode :=
  if args.length = 1 then LaunchMode.interactive
  else
    let flag := strToLower (args.getD 1 "")
    if startsWithStr flag "/c" || startsWithStr flag "-c" then LaunchMode.configure
    else if startsWithStr flag "/p" || startsWithStr flag "-p" then
      LaunchMode.preview (parse_preview_hwnd args)
    else if startsWithStr flag "/s" || startsWithStr flag "-s" then LaunchMode.screensaverExec
    else if startsWithStr flag "/a" || startsWithStr flag "-a" then LaunchMode.passwordStub
    else LaunchMode.interactive

lemma isPrefixOf_pair (a b : Char) (l : List Char) :
    ([a, b].isPrefixOf l) = true ↔ ∃ t, l = a :: b :: t := by
  cases l with
  | nil => simp
  | cons c l' =>
    cases l' with
    | nil => simp [List.isPrefixOf_cons₂]
    | cons d t =>
      simp only [List.isPrefixOf_cons₂, List.isPrefixOf_nil_left, Bool.and_true,
        Bool.and_eq_true, beq_iff_eq, List.cons.injEq]
      constructor
      · rintro ⟨h1, h2⟩
        exact ⟨t, h1.symm, h2.symm, rfl⟩
      · rintro ⟨t', h1, h2, h3⟩
        exact ⟨h1.symm, h2.symm⟩

lemma startsWithStr_pair (s : String) (a b : Char) :
    startsWithStr s (String.mk [a, b]) = true ↔ ∃ t, s.toList = a :: b :: t := by
  unfold startsWithStr
  exact isPrefixOf_pair a b s.toList

lemma startsWithStr_pair_ne (s : String) (a b c d : Char) (t : List Char)
    (hs : s.toList = c :: d :: t) (h : a ≠ c ∨ b ≠ d) :
    startsWithStr s (String.mk [a, b]) = false := by
  unfold startsWithStr
  have hmk : (String.mk [a, b]).toList = [a, b] := rfl
  rw [hmk, hs]
  simp only [List.isPrefixOf_cons₂, List.isPrefixOf_nil_left, Bool.and_true]
  rcases h with h | h
  · have hb : (a == c) = false := beq_eq_false_iff_ne.mpr h
    simp [hb]
  · have hb : (b == d) = false := beq_eq_false_iff_ne.mpr h
    simp [hb]

/-- Claim C3: mode dispatch selects exactly the documented mode by
case-insensitive prefix match on the first user argument: `/c`/`-c` →
Configure, `/p`/`-p` → Preview with the handle from `parse_preview_hwnd`
(next argument when present, else the characters appended after the flag,
`none` when malformed or missing — never an error), `/s`/`-s` → the
screensaver, `/a`/`-a` → the exit-0 stub, and an empty user argument list
or an unrecognized first argument → Interactive; together with the
documented concrete dispatch-table rows. -/
theorem mode_dispatch_follows_documented_rules :
    (∀ prog : String, mainMode [prog] = LaunchMode.interactive) ∧
    (∀ (prog flag : String) (rest : List String),
      (startsWithStr (strToLower flag) "/c" || startsWithStr (strToLower flag) "-c") = true →
      mainMode (prog :: flag :: rest) = LaunchMode.configure) ∧
    (∀ (prog flag : String) (rest : List String),
      (startsWithStr (strToLower flag) "/p" || startsWithStr (strToLower flag) "-p") = true →
      mainMode (prog :: flag :: rest) =
        LaunchMode.preview (parse_preview_hwnd (prog :: flag :: rest))) ∧
    (∀ (prog flag : String) (rest : List String),
      (startsWithStr (strToLower flag) "/c" || startsWithStr (strToLower flag) "-c") = false →
      (startsWithStr (strToLower flag) "/p" || startsWithStr (strToLower flag) "-p") = false →
      (startsWithStr (strToLower flag) "/s" || startsWithStr (strToLower flag) "-s") = true →
      mainMode (prog :: flag :: rest) = LaunchMode.screensaverExec) ∧
    (∀ (prog flag : String) (rest : List String),
      (startsWithStr (strToLower flag) "/c" || startsWithStr (strToLower flag) "-c") = false →
      (startsWithStr (strToLower flag) "/p" || startsWithStr (strToLower flag) "-p") = false →
      (startsWithStr (strToLower flag) "/s" || startsWithStr (strToLower flag) "-s") = false →
      (startsWithStr (strToLower flag) "/a" || startsWithStr (strToLower flag) "-a") = true →
      mainMode (prog :: flag :: rest) = LaunchMode.passwordStub) ∧
    (∀ (prog flag : String) (rest : List String),
      (startsWithStr (strToLower flag) "/c" || startsWithStr (strToLower flag) "-c") = false →
      (startsWithStr (strToLower flag) "/p" || startsWithStr (strToLower flag) "-p") = false →
      (startsWithStr (strToLower flag) "/s" || startsWithStr (strToLower flag) "-s") = false →
      (startsWithStr (strToLower flag) "/a" || startsWithStr (strToLower flag) "-a") = false →
      mainMode (prog :: flag :: rest) = LaunchMode.interactive) ∧
    (∀ (prog flag arg2 : String) (rest : List String),
      parse_preview_hwnd (prog :: flag :: arg2 :: rest) = parseIsize arg2) ∧
    (∀ prog flag : String, 2 < flag.length →
      parse_preview_hwnd [prog, flag] = parseIsize (strDrop flag 2)) ∧
    (∀ prog flag : String, ¬ 2 < flag.length →
      parse_preview_hwnd [prog, flag] = none) ∧
    (mainMode ["prog", "/p", "12345"] = LaunchMode.preview (some 12345) ∧
      mainMode ["prog", "/p12345"] = LaunchMode.preview (some 12345) ∧
      mainMode ["prog", "/p", "abc"] = LaunchMode.preview none ∧
      mainMode ["prog", "/P", "12345"] = LaunchMode.preview (some 12345) ∧
      mainMode ["prog", "/a"] = LaunchMode.passwordStub ∧
      mainMode ["prog", "-C"] = LaunchMode.configure ∧
      mainMode ["prog", "/s"] = LaunchMode.screensaverExec ∧
      mainMode ["prog", "unrecognized"] = LaunchMode.interactive) := by
  refine ⟨?_, ?_, ?_, ?_, ?_, ?_, ?_, ?_, ?_, ?_⟩
  · intro prog
    simp [mainMode]
  · intro prog flag rest hc
    have hlen : ((prog : String) :: flag :: rest).length ≠ 1 := by simp
    simp [mainMode, if_neg hlen, hc]
  · intro prog flag rest hp
    have hlen : ((prog : String) :: flag :: rest).length ≠ 1 := by simp
    rcases Bool.or_eq_true_iff.mp hp with hA | hA
    · obtain ⟨t, ht⟩ := (startsWithStr_pair _ '/' 'p').mp hA
      have hc1 : startsWithStr (strToLower flag) "/c" = false :=
        startsWithStr_pair_ne _ '/' 'c' '/' 'p' t ht (Or.inr (by decide))
      have hc2 : startsWithStr (strToLower flag) "-c" = false :=
        startsWithStr_pair_ne _ '-' 'c' '/' 'p' t ht (Or.inl (by decide))
      simp [mainMode, if_neg hlen, hc1, hc2, hp]
    · obtain ⟨t, ht⟩ := (startsWithStr_pair _ '-' 'p').mp hA
      have hc1 : startsWithStr (strToLower flag) "/c" = false :=
        startsWithStr_pair_ne _ '/' 'c' '-' 'p' t ht (Or.inl (by decide))
      have hc2 : startsWithStr (strToLower flag) "-c" = false :=
        startsWithStr_pair_ne _ '-' 'c' '-' 'p' t ht (Or.inr (by decide))
      simp [mainMode, if_neg hlen, hc1, hc2, hp]
  · intro prog flag rest hc hp hs
    have hlen : ((prog : String) :: flag :: rest).length ≠ 1 := by simp
    simp [mainMode, if_neg hlen, hc, hp, hs]
  · intro prog flag rest hc hp hs ha
    have hlen : ((prog : String) :: flag :: rest).length ≠ 1 := by simp
    simp [mainMode, if_neg hlen, hc, hp, hs, ha]
  · intro prog flag rest hc hp hs ha
    have hlen : ((prog : String) :: flag :: rest).length ≠ 1 := by simp
    simp [mainMode, if_neg hlen, hc, hp, hs, ha]
  · intro prog flag arg2 rest
    simp [parse_preview_hwnd]
  · intro prog flag h2
    simp [parse_preview_hwnd, h2]
  · intro prog flag h2
    simp [parse_preview_hwnd, h2]
  · refine ⟨by decide, by decide, by decide, by decide, by decide, by decide, by decide, by decide⟩

/-- Witness for C3: the Configure clause applied at the concrete argument
list `["saver.scr", "/Config"]` (capitalized, exercising the
case-insensitive prefix match). -/
theorem mode_dispatch_follows_documented_rules_witness :
    (startsWithStr (strToLower "/Config") "/c"
      || startsWithStr (strToLower "/Config") "-c") = true ∧
    mainMode ["saver.scr", "/Config"] = LaunchMode.configure :=
  ⟨by decide, mode_dispatch_follows_documented_rules.2.1 "saver.scr" "/Config" [] (by decide)⟩

/-- The decimal fragment of Rust `str::parse::<f32>`: optional sign, digits,
optional `.` and fraction digits, at least one digit overall. `f32` values
are modelled as exact rationals (every finite `f32` is a decimal rational);
the exponent/`inf`/`nan` forms of the full grammar are not modelled — the
claims need only that parser failure falls back to the default and that the
renderer's plain decimals parse back exactly. -/
def parseF32 (s : String) : Option ℚ :=
  let p := splitSign s.toList
  let intPart := p.2.takeWhile Char.isDigit
  let rest := p.2.dropWhile Char.isDigit
  let signv : ℚ := if p.1 then -1 else 1
  match rest with
  | [] => if intPart = [] then none else some (signv * (digitsVal intPart : ℚ))
  | '.' :: frac =>
    if frac.all Char.isDigit ∧ (intPart ≠ [] ∨ frac ≠ []) then
      some (signv * ((digitsVal intPart : ℚ) + (digitsVal frac : ℚ) / 10 ^ frac.length))
    else none
  | _ => none

/-- Rust `str::parse::<usize>`: optional `+`, one or more ASCII digits,
value at most `2^64 - 1`; `none` where Rust returns `Err`. -/
def parseUsize (s : String) : Option Nat :=
  let p := splitSign s.toList
  if p.1 then none
  else if p.2 ≠ [] ∧ p.2.all Char.isDigit then
    let v := digitsVal p.2
    if v ≤ 2 ^ 64 - 1 then some v else none
  else none

/-- Splits a character list at `'\n'`, keeping a (possibly empty) final
segment, as Rust's `split('\n')` does. -/
def splitNl : List Char → List (List Char)
  | [] => [[]]
  | c :: rest =>
    let tail := splitNl rest
    if c = '\n' then [] :: tail
    else
      match tail with
      | [] => [[c]]
      | l :: ls => (c :: l) :: ls

/-- Removes one trailing `'\r'`, as Rust's `lines()` does to each segment
that was terminated by a `'\n'`. -/
def stripCR (l : List Char) : List Char :=
  if l.getLast? = some '\r' then l.dropLast else l

/-- Rust `str::lines`: split at `'\n'`, drop a final empty segment (the
optional trailing newline), and strip one `'\r'` from every segment that
was terminated by `'\n'` — the final unterminated segment keeps its
`'\r'`. -/
def rustLines (s : String) : List String :=
  let parts := splitNl s.toList
  let most := parts.dropLast.map (fun l => String.mk (stripCR l))
  match parts.getLast? with
  | some [] => most
  | some lastPart => most ++ [String.mk lastPart]
  | none => most

/-- `struct ScreenSaverConfig` (lines 56-62); `f32` fields as `ℚ`. -/
structure ScreenSaverConfig where
  speed : ℚ
  image_index : Nat
  size_factor : ℚ
  custom_image_path : String
deriving DecidableEq

/-- `fn load_config` (lines 516-544). `none` models a missing, unopenable
or unreadable file; `some contents` the file's text. Each of the first
three lines is parsed with a per-field default (`50.0`, `0`, `0.16`), a
missing line falls back to the same default via the default string, and
the fourth line is the custom path (`""` when missing). -/
def loadConfig (file : Option String) : ScreenSaverConfig :=
  match file with
  | none => ⟨50, 0, 16/100, ""⟩
  | some contents =>
    let lines := rustLines contents
    { speed := (parseF32 ((lines.get? 0).getD "50.0")).getD 50
      image_index := (parseUsize ((lines.get? 1).getD "0")).getD 0
      size_factor := (parseF32 ((lines.get? 2).getD "0.16")).getD (16/100)
      custom_image_path := (lines.get? 3).getD "" }

/-- The file text produced by `fn save_config` (lines 546-564): four
`writeln!` lines — the rendered speed, index and size factor followed by
the path. The numeric renderings are supplied by the caller (Rust's `{}`
`Display` for a finite `f32` prints some exact decimal form of it, modelled
by `decimalStr`). -/
def saveContents (speedStr idxStr sizeStr path : String) : String :=
  speedStr ++ "\n" ++ idxStr ++ "\n" ++ sizeStr ++ "\n" ++ path ++ "\n"

/-- Big-endian decimal digits of `n` prepended to `acc` (fuel-structured
so it computes by kernel reduction; `fuel ≥ n` suffices). -/
def natToDigitsAux : Nat → Nat → List Char → List Char
  | 0, _, acc => acc
  | fuel + 1, n, acc =>
    if n = 0 then acc
    else natToDigitsAux fuel (n / 10) (Char.ofNat (48 + n % 10) :: acc)

/-- Decimal digit characters of a natural number. -/
def natToDigits (n : Nat) : List Char :=
  if n = 0 then ['0'] else natToDigitsAux n n []

/-- Rust `Display` for `usize`. -/
def natStr (n : Nat) : String := String.mk (natToDigits n)

/-- Digits of `a` left-padded with zeros to at least `k + 1` characters. -/
def padDigits (a k : Nat) : List Char :=
  List.replicate (k + 1 - (natToDigits a).length) '0' ++ natToDigits a

/-- The exact decimal rendering of `n / 10^k`: sign, integer digits, and
`k` fraction digits after a point. Models Rust's `Display` output for a
finite `f32`, every such value being exactly `n / 10^k` for some `n`, `k`. -/
def decimalStr (n : Int) (k : Nat) : String :=
  let pad := padDigits n.natAbs k
  let digits :=
    if k = 0 then pad
    else pad.take (pad.length - k) ++ '.' :: pad.drop (pad.length - k)
  String.mk (if n < 0 then '-' :: digits else digits)


lemma digitsVal_foldl (a : Nat) (l : List Char) :
    l.foldl (fun x c => 10 * x + digitVal c) a = a * 10 ^ l.length + digitsVal l := by
  induction l generalizing a with
  | nil => simp [digitsVal]
  | cons c l ih =>
    simp only [List.foldl_cons, List.length_cons, digitsVal] at *
    rw [ih (10 * a + digitVal c), ih (10 * 0 + digitVal c)]
    ring

lemma digitsVal_append (l1 l2 : List Char) :
    digitsVal (l1 ++ l2) = digitsVal l1 * 10 ^ l2.length + digitsVal l2 := by
  unfold digitsVal
  rw [List.foldl_append]
  exact digitsVal_foldl _ _

lemma digitsVal_replicate_zero (m : Nat) : digitsVal (List.replicate m '0') = 0 := by
  induction m with
  | zero => rfl
  | succ m ih =>
    rw [List.replicate_succ]
    unfold digitsVal
    simp only [List.foldl_cons]
    have h0 : 10 * 0 + digitVal '0' = 0 := by decide
    rw [h0]
    exact ih

lemma digitChar_facts (m : Nat) (h : m < 10) :
    digitVal (Char.ofNat (48 + m)) = m ∧ (Char.ofNat (48 + m)).isDigit = true := by
  interval_cases m <;> exact ⟨by decide, by decide⟩

lemma natToDigitsAux_val (fuel : Nat) : ∀ n acc, n ≤ fuel →
    digitsVal (natToDigitsAux fuel n acc) = n * 10 ^ acc.length + digitsVal acc := by
  induction fuel with
  | zero =>
    intro n acc hn
    interval_cases n
    simp [natToDigitsAux]
  | succ fuel ih =>
    intro n acc hn
    rw [natToDigitsAux]
    by_cases h : n = 0
    · simp [h]
    · rw [if_neg h]
      have hrec : n / 10 ≤ fuel := by
        have := Nat.div_lt_self (Nat.pos_of_ne_zero h) (by norm_num : 1 < 10)
        omega
      rw [ih (n / 10) (Char.ofNat (48 + n % 10) :: acc) hrec]
      have hm : n % 10 < 10 := Nat.mod_lt _ (by norm_num)
      have hd := (digitChar_facts (n % 10) hm).1
      have hcons : digitsVal (Char.ofNat (48 + n % 10) :: acc)
          = (n % 10) * 10 ^ acc.length + digitsVal acc := by
        unfold digitsVal
        simp only [List.foldl_cons]
        rw [digitsVal_foldl (10 * 0 + digitVal (Char.ofNat (48 + n % 10))) acc]
        rw [hd]
        ring_nf
        rfl
      rw [hcons, List.length_cons]
      have hsplit : 10 * (n / 10) + n % 10 = n := Nat.div_add_mod n 10
      conv_rhs => rw [← hsplit]
      ring

lemma natToDigitsAux_digits (fuel : Nat) : ∀ n acc, (∀ c ∈ acc, c.isDigit = true) →
    ∀ c ∈ natToDigitsAux fuel n acc, c.isDigit = true := by
  induction fuel with
  | zero =>
    intro n acc hacc
    exact hacc
  | succ fuel ih =>
    intro n acc hacc c hc
    rw [natToDigitsAux] at hc
    by_cases h : n = 0
    · rw [if_pos h] at hc
      exact hacc c hc
    · rw [if_neg h] at hc
      have hm : n % 10 < 10 := Nat.mod_lt _ (by norm_num)
      refine ih (n / 10) _ ?_ c hc
      intro d hd
      rcases List.mem_cons.mp hd with rfl | hd'
      · exact (digitChar_facts (n % 10) hm).2
      · exact hacc d hd'

lemma natToDigitsAux_length (fuel : Nat) : ∀ n acc,
    acc.length ≤ (natToDigitsAux fuel n acc).length := by
  induction fuel with
  | zero =>
    intro n acc
    exact le_rfl
  | succ fuel ih =>
    intro n acc
    rw [natToDigitsAux]
    by_cases h : n = 0
    · rw [if_pos h]
    · rw [if_neg h]
      calc acc.length ≤ (Char.ofNat (48 + n % 10) :: acc).length := by simp
        _ ≤ _ := ih (n / 10) _

lemma natToDigits_val (n : Nat) : digitsVal (natToDigits n) = n := by
  unfold natToDigits
  by_cases h : n = 0
  · rw [if_pos h, h]
    decide
  · rw [if_neg h]
    have := natToDigitsAux_val n n [] le_rfl
    simpa [digitsVal] using this

lemma natToDigits_digits (n : Nat) : ∀ c ∈ natToDigits n, c.isDigit = true := by
  unfold natToDigits
  by_cases h : n = 0
  · rw [if_pos h]
    intro c hc
    rcases List.mem_singleton.mp hc with rfl
    decide
  · rw [if_neg h]
    exact natToDigitsAux_digits n n [] (by intro c hc; cases hc)

lemma natToDigits_ne_nil (n : Nat) : natToDigits n ≠ [] := by
  unfold natToDigits
  by_cases h : n = 0
  · rw [if_pos h]
    simp
  · rw [if_neg h]
    obtain ⟨m, rfl⟩ : ∃ m, n = m + 1 := ⟨n - 1, (Nat.succ_pred_eq_of_pos (Nat.pos_of_ne_zero h)).symm⟩
    rw [natToDigitsAux, if_neg h]
    have h1 : (1 : Nat) ≤ ([Char.ofNat (48 + (m + 1) % 10)] : List Char).length := by simp
    have := natToDigitsAux_length m ((m + 1) / 10) [Char.ofNat (48 + (m + 1) % 10)]
    intro hnil
    rw [hnil] at this
    simp at this

lemma takeWhile_all (p : Char → Bool) (l : List Char) (h : ∀ c ∈ l, p c = true) :
    l.takeWhile p = l ∧ l.dropWhile p = [] := by
  induction l with
  | nil => simp
  | cons c l ih =>
    have hc : p c = true := h c (by simp)
    have := ih (fun d hd => h d (by simp [hd]))
    simp [List.takeWhile_cons, List.dropWhile_cons, hc, this.1, this.2]

lemma takeWhile_append_stop (p : Char → Bool) (hi : List Char) (x : Char) (lo : List Char)
    (hhi : ∀ c ∈ hi, p c = true) (hx : p x = false) :
    (hi ++ x :: lo).takeWhile p = hi ∧ (hi ++ x :: lo).dropWhile p = x :: lo := by
  induction hi with
  | nil => simp [List.takeWhile_cons, List.dropWhile_cons, hx]
  | cons c hi ih =>
    have hc : p c = true := hhi c (by simp)
    have := ih (fun d hd => hhi d (by simp [hd]))
    simp [List.takeWhile_cons, List.dropWhile_cons, hc, this.1, this.2]

lemma splitSign_digits (l : List Char) (hne : l ≠ []) (h : ∀ c ∈ l, c.isDigit = true) :
    splitSign l = (false, l) := by
  cases l with
  | nil => exact absurd rfl hne
  | cons c rest =>
    have hc : c.isDigit = true := h c (by simp)
    have h1 : c ≠ '+' := by rintro rfl; exact absurd hc (by decide)
    have h2 : c ≠ '-' := by rintro rfl; exact absurd hc (by decide)
    simp [splitSign, h1, h2]

lemma parseUsize_natStr (n : Nat) (h : n ≤ 2 ^ 64 - 1) : parseUsize (natStr n) = some n := by
  unfold parseUsize natStr
  rw [show (String.mk (natToDigits n)).toList = natToDigits n from rfl,
    splitSign_digits (natToDigits n) (natToDigits_ne_nil n) (natToDigits_digits n)]
  simp only [natToDigits_val]
  simp [natToDigits_ne_nil n, List.all_eq_true.mpr (natToDigits_digits n)]
  omega

lemma padDigits_digits (a k : Nat) : ∀ c ∈ padDigits a k, c.isDigit = true := by
  intro c hc
  rcases List.mem_append.mp hc with hc | hc
  · have := List.eq_of_mem_replicate hc
    rw [this]
    decide
  · exact natToDigits_digits _ c hc

lemma padDigits_val (a k : Nat) : digitsVal (padDigits a k) = a := by
  rw [padDigits, digitsVal_append, digitsVal_replicate_zero, natToDigits_val]
  simp

lemma padDigits_len (a k : Nat) : k + 1 ≤ (padDigits a k).length := by
  have h1 : 1 ≤ (natToDigits a).length := List.length_pos.mpr (natToDigits_ne_nil a)
  rw [padDigits, List.length_append, List.length_replicate]
  omega

lemma padDigits_ne_nil (a k : Nat) : padDigits a k ≠ [] := by
  have := padDigits_len a k
  intro hnil
  rw [hnil] at this
  simp at this

lemma parseF32_digit_list (l : List Char) (hne : l ≠ []) (hd : ∀ c ∈ l, c.isDigit = true) :
    parseF32 (String.mk l) = some ((digitsVal l : ℚ)) ∧
    parseF32 (String.mk ('-' :: l)) = some (-(digitsVal l : ℚ)) := by
  have htw := takeWhile_all Char.isDigit l hd
  constructor
  · rw [parseF32]
    have htl : (String.mk l).toList = l := rfl
    rw [htl, splitSign_digits l hne hd]
    simp only [htw.1, htw.2]
    rw [if_neg hne]
    norm_num
  · rw [parseF32]
    have htl : (String.mk ('-' :: l)).toList = '-' :: l := rfl
    rw [htl]
    have hss : splitSign ('-' :: l) = (true, l) := by simp [splitSign]
    rw [hss]
    simp only [htw.1, htw.2]
    rw [if_neg hne]
    norm_num

lemma parseF32_point_list (hi lo : List Char) (hne : hi ≠ [])
    (hhi : ∀ c ∈ hi, c.isDigit = true) (hlo : ∀ c ∈ lo, c.isDigit = true) :
    parseF32 (String.mk (hi ++ '.' :: lo)) =
      some ((digitsVal hi : ℚ) + (digitsVal lo : ℚ) / 10 ^ lo.length) ∧
    parseF32 (String.mk ('-' :: (hi ++ '.' :: lo))) =
      some (-((digitsVal hi : ℚ) + (digitsVal lo : ℚ) / 10 ^ lo.length)) := by
  have htw := takeWhile_append_stop Char.isDigit hi '.' lo hhi (by decide)
  have hsplit : splitSign (hi ++ '.' :: lo) = (false, hi ++ '.' :: lo) := by
    rcases hi with _ | ⟨c, hi'⟩
    · exact absurd rfl hne
    · have hc : c.isDigit = true := hhi c (by simp)
      have h1 : c ≠ '+' := by rintro rfl; exact absurd hc (by decide)
      have h2 : c ≠ '-' := by rintro rfl; exact absurd hc (by decide)
      simp [splitSign, h1, h2]
  constructor
  · rw [parseF32]
    have htl : (String.mk (hi ++ '.' :: lo)).toList = hi ++ '.' :: lo := rfl
    rw [htl, hsplit]
    simp only [htw.1, htw.2]
    rw [if_pos ⟨List.all_eq_true.mpr hlo, Or.inl hne⟩]
    norm_num
  · rw [parseF32]
    have htl : (String.mk ('-' :: (hi ++ '.' :: lo))).toList = '-' :: (hi ++ '.' :: lo) := rfl
    rw [htl]
    have hss : splitSign ('-' :: (hi ++ '.' :: lo)) = (true, hi ++ '.' :: lo) := by
      simp [splitSign]
    rw [hss]
    simp only [htw.1, htw.2]
    rw [if_pos ⟨List.all_eq_true.mpr hlo, Or.inl hne⟩]
    norm_num

lemma natAbs_cast_rat (n : Int) :
    ((n.natAbs : ℚ)) = if n < 0 then -(n : ℚ) else (n : ℚ) := by
  by_cases hneg : n < 0
  · rw [if_pos hneg, Int.cast_natAbs, Int.cast_abs]
    exact abs_of_neg (by exact_mod_cast hneg)
  · rw [if_neg hneg, Int.cast_natAbs, Int.cast_abs]
    exact abs_of_nonneg (by exact_mod_cast not_lt.mp hneg)

lemma parseF32_decimalStr (n : Int) (k : Nat) :
    parseF32 (decimalStr n k) = some ((n : ℚ) / 10 ^ k) := by
  by_cases hk : k = 0
  · subst hk
    have hdig : decimalStr n 0 =
        String.mk (if n < 0 then '-' :: padDigits n.natAbs 0 else padDigits n.natAbs 0) := by
      simp [decimalStr]
    have hpl := parseF32_digit_list (padDigits n.natAbs 0) (padDigits_ne_nil _ _)
      (padDigits_digits _ _)
    by_cases hneg : n < 0
    · rw [hdig, if_pos hneg, hpl.2, padDigits_val, natAbs_cast_rat, if_pos hneg]
      norm_num
    · rw [hdig, if_neg hneg, hpl.1, padDigits_val, natAbs_cast_rat, if_neg hneg]
      norm_num
  · have hlen := padDigits_len n.natAbs k
    have hhi_len : ((padDigits n.natAbs k).take ((padDigits n.natAbs k).length - k)).length
        = (padDigits n.natAbs k).length - k := by
      rw [List.length_take]
      omega
    have hhi_ne : (padDigits n.natAbs k).take ((padDigits n.natAbs k).length - k) ≠ [] := by
      intro hnil
      have := congrArg List.length hnil
      rw [hhi_len] at this
      simp at this
      omega
    have hlo_len : ((padDigits n.natAbs k).drop ((padDigits n.natAbs k).length - k)).length
        = k := by
      rw [List.length_drop]
      omega
    have hhi_digits : ∀ c ∈ (padDigits n.natAbs k).take ((padDigits n.natAbs k).length - k),
        c.isDigit = true := fun c hc => padDigits_digits _ _ c (List.mem_of_mem_take hc)
    have hlo_digits : ∀ c ∈ (padDigits n.natAbs k).drop ((padDigits n.natAbs k).length - k),
        c.isDigit = true := fun c hc => padDigits_digits _ _ c (List.mem_of_mem_drop hc)
    have hval : digitsVal ((padDigits n.natAbs k).take ((padDigits n.natAbs k).length - k))
          * 10 ^ ((padDigits n.natAbs k).drop ((padDigits n.natAbs k).length - k)).length
        + digitsVal ((padDigits n.natAbs k).drop ((padDigits n.natAbs k).length - k))
        = n.natAbs := by
      rw [← digitsVal_append, List.take_append_drop, padDigits_val]
    rw [hlo_len] at hval
    have hdig : decimalStr n k =
        String.mk (if n < 0 then
          '-' :: ((padDigits n.natAbs k).take ((padDigits n.natAbs k).length - k)
            ++ '.' :: (padDigits n.natAbs k).drop ((padDigits n.natAbs k).length - k))
        else (padDigits n.natAbs k).take ((padDigits n.natAbs k).length - k)
            ++ '.' :: (padDigits n.natAbs k).drop ((padDigits n.natAbs k).length - k)) := by
      simp only [decimalStr, if_neg hk]
    have hpl := parseF32_point_list _ _ hhi_ne hhi_digits hlo_digits
    have hq : (digitsVal ((padDigits n.natAbs k).take ((padDigits n.natAbs k).length - k)) : ℚ)
          * 10 ^ k
        + (digitsVal ((padDigits n.natAbs k).drop ((padDigits n.natAbs k).length - k)) : ℚ)
        = (n.natAbs : ℚ) := by
      exact_mod_cast congrArg (fun m : Nat => (m : ℚ)) hval
    have hpow : (10 : ℚ) ^ k ≠ 0 := by positivity
    by_cases hneg : n < 0
    · rw [hdig, if_pos hneg, hpl.2, hlo_len]
      have hna := natAbs_cast_rat n
      rw [if_pos hneg] at hna
      rw [hna] at hq
      congr 1
      field_simp
      linarith
    · rw [hdig, if_neg hneg, hpl.1, hlo_len]
      have hna := natAbs_cast_rat n
      rw [if_neg hneg] at hna
      rw [hna] at hq
      congr 1
      field_simp
      linarith

lemma splitNl_append_nl (a : List Char) (rest : List Char) (h : '\n' ∉ a) :
    splitNl (a ++ '\n' :: rest) = a :: splitNl rest := by
  induction a with
  | nil => simp [splitNl]
  | cons c a ih =>
    have hc : c ≠ '\n' := by
      intro e
      exact h (by simp [e])
    have htail := ih (fun hm => h (List.mem_cons_of_mem c hm))
    have htail' : splitNl (a.append ('\n' :: rest)) = a :: splitNl rest := htail
    simp only [List.cons_append, splitNl, htail, htail', if_neg hc]

lemma stripCR_id (l : List Char) (h : l.getLast? ≠ some '\r') : stripCR l = l := by
  rw [stripCR, if_neg h]

lemma isDigit_not_special (c : Char) (h : c.isDigit = true) :
    c ≠ '\n' ∧ c ≠ '\r' := by
  constructor
  · rintro rfl
    exact absurd h (by decide)
  · rintro rfl
    exact absurd h (by decide)

lemma natStr_clean :
    ∀ n : Nat, '\n' ∉ (natStr n).toList ∧ (natStr n).toList.getLast? ≠ some '\r' := by
  intro n
  have hchars : ∀ c ∈ (natStr n).toList, c ≠ '\n' ∧ c ≠ '\r' := by
    intro c hc
    exact isDigit_not_special c (natToDigits_digits n c hc)
  constructor
  · intro hmem
    exact (hchars _ hmem).1 rfl
  · intro hlast
    exact (hchars _ (List.mem_of_getLast?_eq_some hlast)).2 rfl

lemma decimalStr_clean (n : Int) (k : Nat) :
    '\n' ∉ (decimalStr n k).toList ∧ (decimalStr n k).toList.getLast? ≠ some '\r' := by
  have hchars : ∀ c ∈ (decimalStr n k).toList, c ≠ '\n' ∧ c ≠ '\r' := by
    intro c hc
    have hc' : c ∈ (if n < 0 then
        '-' :: (if k = 0 then padDigits n.natAbs k
          else (padDigits n.natAbs k).take ((padDigits n.natAbs k).length - k)
            ++ '.' :: (padDigits n.natAbs k).drop ((padDigits n.natAbs k).length - k))
      else (if k = 0 then padDigits n.natAbs k
          else (padDigits n.natAbs k).take ((padDigits n.natAbs k).length - k)
            ++ '.' :: (padDigits n.natAbs k).drop ((padDigits n.natAbs k).length - k))) := hc
    have hdigits : ∀ d ∈ (if k = 0 then padDigits n.natAbs k
        else (padDigits n.natAbs k).take ((padDigits n.natAbs k).length - k)
          ++ '.' :: (padDigits n.natAbs k).drop ((padDigits n.natAbs k).length - k)),
        d ≠ '\n' ∧ d ≠ '\r' := by
      intro d hd
      by_cases hk : k = 0
      · rw [if_pos hk] at hd
        exact isDigit_not_special d (padDigits_digits n.natAbs k d hd)
      · rw [if_neg hk] at hd
        rcases List.mem_append.mp hd with hd | hd
        · exact isDigit_not_special d (padDigits_digits n.natAbs k d (List.mem_of_mem_take hd))
        · rcases List.mem_cons.mp hd with rfl | hd
          · exact ⟨by decide, by decide⟩
          · exact isDigit_not_special d
              (padDigits_digits n.natAbs k d (List.mem_of_mem_drop hd))
    by_cases hneg : n < 0
    · rw [if_pos hneg] at hc'
      rcases List.mem_cons.mp hc' with rfl | hc''
      · exact ⟨by decide, by decide⟩
      · exact hdigits c hc''
    · rw [if_neg hneg] at hc'
      exact hdigits c hc'
  constructor
  · intro hmem
    exact (hchars _ hmem).1 rfl
  · intro hlast
    exact (hchars _ (List.mem_of_getLast?_eq_some hlast)).2 rfl

lemma rustLines_saveContents (a b c d : String)
    (ha : '\n' ∉ a.toList) (ha' : a.toList.getLast? ≠ some '\r')
    (hb : '\n' ∉ b.toList) (hb' : b.toList.getLast? ≠ some '\r')
    (hc : '\n' ∉ c.toList) (hc' : c.toList.getLast? ≠ some '\r')
    (hd : '\n' ∉ d.toList) (hd' : d.toList.getLast? ≠ some '\r') :
    rustLines (saveContents a b c d) = [a, b, c, d] := by
  have htl : (saveContents a b c d).toList
      = a.toList ++ '\n' :: (b.toList ++ '\n' :: (c.toList ++ '\n' :: (d.toList ++ ['\n']))) := by
    simp [saveContents, String.toList, String.data_append]
  have hparts : splitNl (saveContents a b c d).toList
      = [a.toList, b.toList, c.toList, d.toList, []] := by
    rw [htl, splitNl_append_nl _ _ ha, splitNl_append_nl _ _ hb, splitNl_append_nl _ _ hc]
    have : d.toList ++ ['\n'] = d.toList ++ '\n' :: [] := rfl
    rw [this, splitNl_append_nl _ _ hd]
    rfl
  rw [rustLines, hparts]
  have hlast : ([a.toList, b.toList, c.toList, d.toList, ([] : List Char)]
      : List (List Char)).getLast? = some [] := rfl
  simp only [hlast, List.dropLast, List.map]
  rw [stripCR_id _ ha', stripCR_id _ hb', stripCR_id _ hc', stripCR_id _ hd']
  rfl

lemma string_mk_toList (s : String) : String.mk s.toList = s := rfl

/-- Claim C7: loading with the file missing (or unreadable) yields exactly
the default record (speed 50.0, index 0, size factor 0.16, empty path);
and for any file contents, each individually missing or unparseable field
falls back to that field's default. Loading is total — no error is ever
surfaced. -/
theorem load_config_missing_or_malformed_defaults :
    loadConfig none = ⟨50, 0, 16/100, ""⟩ ∧
    (∀ contents : String,
      (parseF32 (((rustLines contents).get? 0).getD "50.0") = none →
        (loadConfig (some contents)).speed = 50) ∧
      (parseUsize (((rustLines contents).get? 1).getD "0") = none →
        (loadConfig (some contents)).image_index = 0) ∧
      (parseF32 (((rustLines contents).get? 2).getD "0.16") = none →
        (loadConfig (some contents)).size_factor = 16/100) ∧
      ((rustLines contents).get? 3 = none →
        (loadConfig (some contents)).custom_image_path = "")) := by
  refine ⟨rfl, ?_⟩
  intro contents
  refine ⟨?_, ?_, ?_, ?_⟩ <;> intro h <;> simp only [loadConfig] <;> rw [h] <;> rfl

/-- Witness for C7 at the concrete malformed file `"x\ny\nz"`. -/
theorem load_config_defaults_witness :
    parseF32 (((rustLines "x\ny\nz").get? 0).getD "50.0") = none ∧
    (loadConfig (some "x\ny\nz")).speed = 50 :=
  ⟨by decide, (load_config_missing_or_malformed_defaults.2 "x\ny\nz").1 (by decide)⟩

/-- Claim C8 (amended): for every record whose numeric fields are within
the documented ranges (written in their exact decimal forms `sn/10^sk`,
`zn/10^zk`) and whose custom path contains no newline and does not end in
a carriage return, saving and then loading reproduces the record
exactly. -/
theorem save_load_round_trip (sn : Int) (sk : Nat) (idx : Nat) (zn : Int) (zk : Nat)
    (path : String)
    (hsp1 : 10 ≤ (sn : ℚ) / 10 ^ sk) (hsp2 : (sn : ℚ) / 10 ^ sk ≤ 200)
    (hidx : idx ≤ 2)
    (hsz1 : 1/20 ≤ (zn : ℚ) / 10 ^ zk) (hsz2 : (zn : ℚ) / 10 ^ zk ≤ 1/2)
    (hpath_nl : '\n' ∉ path.toList) (hpath_cr : path.toList.getLast? ≠ some '\r') :
    loadConfig (some (saveContents (decimalStr sn sk) (natStr idx) (decimalStr zn zk) path))
      = ⟨(sn : ℚ) / 10 ^ sk, idx, (zn : ℚ) / 10 ^ zk, path⟩ := by
  have hlines := rustLines_saveContents (decimalStr sn sk) (natStr idx) (decimalStr zn zk) path
    (decimalStr_clean sn sk).1 (decimalStr_clean sn sk).2
    (natStr_clean idx).1 (natStr_clean idx).2
    (decimalStr_clean zn zk).1 (decimalStr_clean zn zk).2
    hpath_nl hpath_cr
  rw [loadConfig]
  rw [hlines]
  simp only [List.get?, Option.getD_some]
  rw [parseF32_decimalStr, parseF32_decimalStr, parseUsize_natStr idx (by omega)]
  rfl

/-- Counterexample to C8 as stated: the record (50.0, 0, 0.16, "a\nb")
has finite in-range numeric fields, yet saving and loading does not
reproduce it — the newline inside the path makes the loader read back
only "a". -/
theorem config_newline_path_breaks_round_trip :
    ((10 : ℚ) ≤ 50 ∧ (50 : ℚ) ≤ 200) ∧ (0 : Nat) ≤ 2 ∧
    ((1/20 : ℚ) ≤ 16/100 ∧ (16/100 : ℚ) ≤ 1/2) ∧
    loadConfig (some (saveContents (decimalStr 50 0) (natStr 0) (decimalStr 16 2) "a\nb"))
      ≠ ⟨50, 0, 16/100, "a\nb"⟩ := by
  refine ⟨⟨by norm_num, by norm_num⟩, by norm_num, ⟨by norm_num, by norm_num⟩, ?_⟩
  intro h
  have hpath := congrArg ScreenSaverConfig.custom_image_path h
  exact absurd hpath (by decide)


/-- Witness for the amended C8 at the concrete record
(50.0, 1, 0.16, "icon.png"). -/
theorem save_load_round_trip_witness :
    ((10 : ℚ) ≤ (500 : ℚ) / 10 ^ 1 ∧ (500 : ℚ) / 10 ^ 1 ≤ 200) ∧
    loadConfig (some (saveContents (decimalStr 500 1) (natStr 1) (decimalStr 16 2) "icon.png"))
      = ⟨(500 : ℚ) / 10 ^ 1, 1, (16 : ℚ) / 10 ^ 2, "icon.png"⟩ :=
  ⟨⟨by norm_num, by norm_num⟩,
    save_load_round_trip 500 1 1 16 2 "icon.png" (by norm_num) (by norm_num) (by norm_num)
      (by norm_num) (by norm_num) (by decide) (by decide)⟩

/-- The window events `fn window_event` (lines 690-711) distinguishes:
`MouseMoved` with an `f32` position (modelled over `ℚ × ℚ`),
`MousePressed`, `KeyPressed`, `MouseWheel`, and everything else. -/
inductive WinEvent where
  | mouseMoved (pos : ℚ × ℚ)
  | mousePressed
  | keyPressed
  | mouseWheel
  | other
deriving DecidableEq

/-- The `Model` fields `window_event` touches: the pointer baseline
`m_pos` and the `is_preview` flag. -/
structure InputState where
  mPos : Option (ℚ × ℚ)
  isPreview : Bool
deriving DecidableEq

/-- `fn window_event` (lines 690-711). `time` is `app.time` (seconds since
session start); the returned `Bool` is whether `app.quit()` was called. In
preview mode nothing happens; within the 0.1 s startup window nothing
happens; afterwards a first mouse move records the baseline, a move whose
position differs from the baseline quits, and any press, key or wheel
event quits. (`m_pos.unwrap()` is safe in the source because `m_pos` was
just filled; the `decide` mirrors the `!=` comparison.) -/
def window_event (time : ℚ) (m : InputState) (e : WinEvent) : InputState × Bool :=
  if m.isPreview then (m, false)
  else if time > 1/10 then
    match e with
    | WinEvent.mouseMoved pos =>
      let m' := if m.mPos = none then { m with mPos := some pos } else m
      (m', decide (m'.mPos ≠ some pos))
    | WinEvent.mousePressed => (m, true)
    | WinEvent.keyPressed => (m, true)
    | WinEvent.mouseWheel => (m, true)
    | WinEvent.other => (m, false)
  else (m, false)

/-- Claim C9: in preview mode no input ever ends the session or changes
anything; while elapsed time is at most the 0.1 s startup-jitter window no
input ends the session; after that window the first pointer position is
recorded as the baseline (without quitting), a pointer position equal to
the baseline does not quit, a differing pointer position quits, and any
button press, key press or scroll event quits immediately. -/
theorem window_event_behavior :
    (∀ (t : ℚ) (m : InputState) (e : WinEvent), m.isPreview = true →
      window_event t m e = (m, false)) ∧
    (∀ (t : ℚ) (m : InputState) (e : WinEvent), t ≤ 1/10 →
      window_event t m e = (m, false)) ∧
    (∀ (t : ℚ) (m : InputState) (pos : ℚ × ℚ), m.isPreview = false → 1/10 < t →
      m.mPos = none →
      window_event t m (WinEvent.mouseMoved pos) = ({ m with mPos := some pos }, false)) ∧
    (∀ (t : ℚ) (m : InputState) (p : ℚ × ℚ), m.isPreview = false → 1/10 < t →
      m.mPos = some p →
      window_event t m (WinEvent.mouseMoved p) = (m, false)) ∧
    (∀ (t : ℚ) (m : InputState) (p pos : ℚ × ℚ), m.isPreview = false → 1/10 < t →
      m.mPos = some p → pos ≠ p →
      window_event t m (WinEvent.mouseMoved pos) = (m, true)) ∧
    (∀ (t : ℚ) (m : InputState) (e : WinEvent), m.isPreview = false → 1/10 < t →
      (e = WinEvent.mousePressed ∨ e = WinEvent.keyPressed ∨ e = WinEvent.mouseWheel) →
      window_event t m e = (m, true)) := by
  refine ⟨?_, ?_, ?_, ?_, ?_, ?_⟩
  · intro t m e hp
    simp [window_event, hp]
  · intro t m e ht
    by_cases hp : m.isPreview
    · simp [window_event, hp]
    · simp only [window_event, Bool.not_eq_true] at *
      rw [if_neg (by simp [hp]), if_neg (by exact not_lt.mpr ht)]
  · intro t m pos hp ht hb
    rw [one_div] at ht
    simp [window_event, hp, ht, hb]
  · intro t m p hp ht hb
    rw [one_div] at ht
    simp [window_event, hp, ht, hb]
  · intro t m p pos hp ht hb hne
    rw [one_div] at ht
    simp [window_event, hp, ht, hb, Ne.symm hne]
  · intro t m e hp ht he
    rw [one_div] at ht
    rcases he with rfl | rfl | rfl <;> simp [window_event, hp, ht]

/-- Witness for C9: a key press at `t = 1` in non-preview mode quits. -/
theorem window_event_behavior_witness :
    window_event 1 ⟨none, false⟩ WinEvent.keyPressed = (⟨none, false⟩, true) :=
  window_event_behavior.2.2.2.2.2 1 ⟨none, false⟩ WinEvent.keyPressed rfl (by norm_num)
    (Or.inr (Or.inl rfl))

/-- The two PNG assets embedded with `include_bytes!`. -/
inductive Asset where
  | dvdLogo
  | dvdLogo2
deriving DecidableEq

/-- `fn load_image_safe` (lines 566-583), parameterized by the filesystem
(`fileExists` models `Path::exists`, `openImage` models `image::open`,
which are external). Error strings abbreviate the source's formatted
messages. -/
def load_image_safe {α : Type} (fileExists : String → Bool) (openImage : String → Option α)
    (path : String) : Except String α :=
  if path = "" then Except.error "Empty path"
  else if fileExists path = false then Except.error "File not found"
  else
    match openImage path with
    | some img => Except.ok img
    | none => Except.error "image decode failed"

/-- `fn get_image_data` (lines 585-610), parameterized by the external
image decoder: `loadFromMemory` models `image::load_from_memory` on the
embedded assets. Index 0 and the out-of-range default branch decode the
same `dvd_logo.png` bytes; index 1 decodes `dvd_logo2.png`; index 2
requires a non-empty existing custom path. -/
def get_image_data {α : Type} (loadFromMemory : Asset → Option α) (fileExists : String → Bool)
    (openImage : String → Option α) (image_index : Nat) (custom_path : String) :
    Except String α :=
  match image_index with
  | 0 =>
    match loadFromMemory Asset.dvdLogo with
    | some img => Except.ok img
    | none => Except.error "Unable to load built-in icon 1"
  | 1 =>
    match loadFromMemory Asset.dvdLogo2 with
    | some img => Except.ok img
    | none => Except.error "Unable to load built-in icon 2"
  | 2 =>
    if custom_path = "" then Except.error "No custom icon path specified"
    else
      match load_image_safe fileExists openImage custom_path with
      | Except.ok img => Except.ok img
      | Except.error e => Except.error ("Unable to load custom icon: " ++ e)
  | _ + 3 =>
    match loadFromMemory Asset.dvdLogo with
    | some img => Except.ok img
    | none => Except.error "Unable to load default icon"

/-- Claim C10: for every image index outside {0, 1, 2} and every custom
path, whenever decoding the embedded default-logo bytes succeeds (as it
does for the bundled asset), `get_image_data` returns that decoded image
successfully — the same result as index 0 — and never an error value. -/
theorem get_image_data_out_of_range_uses_default {α : Type}
    (loadFromMemory : Asset → Option α) (fileExists : String → Bool)
    (openImage : String → Option α) (image_index : Nat) (custom_path : String) (img : α)
    (hidx : 3 ≤ image_index) (hload : loadFromMemory Asset.dvdLogo = some img) :
    get_image_data loadFromMemory fileExists openImage image_index custom_path
      = Except.ok img ∧
    get_image_data loadFromMemory fileExists openImage 0 custom_path = Except.ok img := by
  obtain ⟨m, rfl⟩ : ∃ m, image_index = m + 3 := ⟨image_index - 3, by omega⟩
  constructor
  · simp [get_image_data, hload]
  · simp [get_image_data, hload]

/-- Witness for C10 at index 99 with a decoder that succeeds with `7`. -/
theorem get_image_data_out_of_range_witness :
    get_image_data (fun _ => some 7) (fun _ => false) (fun _ => none) 99 "" = Except.ok 7 ∧
    get_image_data (fun _ => some 7) (fun _ => false) (fun _ => none) 0 "" = Except.ok 7 :=
  get_image_data_out_of_range_uses_default (fun _ => some 7) (fun _ => false) (fun _ => none)
    99 "" 7 (by norm_num) rfl

end DvdScreensaver
